import Mathlib

/-!
Shallow embedding of the abz archive converter (src/format.rs, src/status.rs,
src/archive.rs, src/app.rs) and proofs about its specification.

Conventions of the embedding:
* Rust machine integers that only count bytes are modelled as `Nat` (they
  count sizes of real files, far below any wrap-around of u64).
* Progress fractions (`f32` in the source, produced by dividing two byte
  counts) are modelled as exact rationals via `mkRat`.
* Fallible Rust code returning `Result` is modelled with `Except String`.
* File-system reads are modelled by the data they deliver: an archive entry
  carries the list of byte counts returned by the successive `read` calls on
  its body stream (a final 0-length read models end of file).
* The build is taken with the `7z` cargo feature enabled, so `Format` has
  all three constructors and all six transcoders are present.
* Rust `str::ends_with` works on UTF-8 byte suffixes; for valid UTF-8 this
  agrees with suffix matching on the character list, which is how
  `strEndsWith` models it (`String.data` is the character list).
-/

namespace Abz

/-- Model of Rust str::ends_with on the character-list view of a string. -/
def strEndsWith (s post : String) : Bool := post.data.isSuffixOf s.data

/-- Model of Rust str::strip_suffix: the string without the suffix when the
suffix matches, none otherwise. -/
def stripSuffix (s post : String) : Option String :=
  if strEndsWith s post then some (s.dropRight post.length) else none

/-- Fraction emitted to a progress callback: the source computes
read_size as f64 / total_size as f64 and narrows to f32; the value is the
exact rational quotient, which is what this models (for a zero denominator
`mkRat` yields 0). -/
def fraction (num den : Nat) : ℚ := mkRat num den

/-! ## Format registry (src/format.rs) -/

/-- Closed enumeration of supported container kinds (format.rs lines 3-10). -/
inductive Format
  | zip
  | tarGz
  | sevenZ
deriving DecidableEq

/-- Canonical extension of a format (format.rs lines 24-31). -/
def Format.extension : Format → String
  | .zip => "zip"
  | .tarGz => "tar.gz"
  | .sevenZ => "7z"

/-- Filename classification (format.rs lines 38-50): the suffixes are tested
in the fixed order .zip, .tar.gz, .7z, each test returning early. -/
def Format.parse (fileName : String) : Option Format :=
  if strEndsWith fileName ".zip" then some .zip
  else if strEndsWith fileName ".tar.gz" then some .tarGz
  else if strEndsWith fileName ".7z" then some .sevenZ
  else none

/-- The suffix table in the order the source tests it (format.rs 38-50). -/
def suffixTable : List (String × Format) :=
  [(".zip", .zip), (".tar.gz", .tarGz), (".7z", .sevenZ)]

/-- Restatement of the spec sentence for C7: scan the ordered suffix table
and return the format of the first suffix that matches, or none. -/
def firstSuffixMatch (fileName : String) : Option Format :=
  (suffixTable.find? (fun p => strEndsWith fileName p.1)).map Prod.snd

/-! ## Status (src/status.rs) -/

/-- Per-item conversion status (status.rs lines 6-13). -/
inductive Status
  | pending
  | processing (ratio : ℚ)
  | success
  | failed (msg : String)
deriving DecidableEq

def Status.isSuccess : Status → Bool
  | .success => true
  | _ => false

def Status.isFailed : Status → Bool
  | .failed _ => true
  | _ => false

/-- A terminal status is Success or Failed (spec glossary). -/
def Status.isTerminal (s : Status) : Bool := s.isSuccess || s.isFailed

/-! ## ProcessRead (src/archive.rs lines 504-521)

The wrapper owns an underlying readable source and a callback. The source
is modelled state-passing style: a read function takes the source state and
returns the read outcome (error, or the chunk of bytes delivered) together
with the next source state. The callback is modelled as a state transformer
so that every invocation is visible in the callback state. -/

structure ProcessRead (α β : Type) where
  read : α → Except String (List Nat) × α
  f : β → Nat → β

/-- One call of `Read::read` on the wrapper (archive.rs 515-521): perform the
underlying read; on error, propagate it unchanged without touching the
callback; on success, invoke the callback exactly once with the size of the
chunk just read and hand the chunk through unaltered. -/
def ProcessRead.readStep {α β : Type} (p : ProcessRead α β) (st : α × β) :
    Except String (List Nat) × α × β :=
  match p.read st.1 with
  | (.error e, a) => (.error e, a, st.2)
  | (.ok bs, a) => (.ok bs, a, p.f st.2 bs.length)

/-! ## Transcoders (src/archive.rs lines 221-502)

Containers are modelled by their entry sequences. An entry records the
metadata the transcoders read from it and the list of byte counts its body
stream delivers to successive reads. The six transcoders map a source
container to the written target entries plus the list of fractions emitted
to the progress callback, or to the error that aborted the conversion. -/

/-- One entry of an opened Zip source: name, directory flag, header
uncompressed size, optional unix mode, and the read chunk sizes of its
body. -/
structure ZipEntry where
  name : String
  isDir : Bool
  size : Nat
  unixMode : Option Nat
  reads : List Nat
deriving DecidableEq

/-- An opened Zip source container. sizeKnown models whether
ZipArchive::decompressed_size() returns Some (the sum of entry sizes); when
it is None the source falls back to u128::MAX as denominator. -/
structure ZipSource where
  entries : List ZipEntry
  sizeKnown : Bool
deriving DecidableEq

/-- Fallback denominator u128::MAX used at archive.rs 230 and 469 when the
Zip decompressed size is unknown. -/
def U128_MAX : Nat := 2 ^ 128 - 1

/-- Total size for a Zip source: decompressed_size().unwrap_or(u128::MAX). -/
def ZipSource.totalSize (z : ZipSource) : Nat :=
  if z.sizeKnown then (z.entries.map ZipEntry.size).sum else U128_MAX

/-- One entry yielded by the tar entries iterator: path, unix mode from the
header, directory flag, header size, and the read chunk sizes of its body.
The body of a well-formed entry delivers exactly size bytes in total. -/
structure TarEntry where
  path : String
  mode : Nat
  isDir : Bool
  size : Nat
  reads : List Nat
deriving DecidableEq

/-- Bytes actually delivered by an entry body (what io::copy returns). -/
def TarEntry.dataLen (e : TarEntry) : Nat := e.reads.sum

/-- A tar.gz source is the sequence of results its entries iterator yields;
an Err result models a malformed or unreadable entry (the real iterator
stops after yielding an error). -/
abbrev TarSource := List (Except String TarEntry)

/-- One entry of an opened 7z source. -/
structure SevenZEntry where
  name : String
  isDir : Bool
  size : Nat
  reads : List Nat
deriving DecidableEq

/-- An opened 7z source container. -/
structure SevenZSource where
  entries : List SevenZEntry
deriving DecidableEq

/-- Total size for a 7z source (archive.rs 361-366 and 414-419): the sum of
the size field over all entries of the archive listing. -/
def SevenZSource.totalSize (s : SevenZSource) : Nat :=
  (s.entries.map SevenZEntry.size).sum

/-- Entry kinds written to a tar target. -/
inductive EntryKind
  | directory
  | regular
deriving DecidableEq

/-- A tar entry as written by tar::Builder::append_data: GNU header with
size, mode and entry type, plus the entry path. -/
structure TarOut where
  path : String
  size : Nat
  mode : Nat
  kind : EntryKind
deriving DecidableEq

/-- A finished tar.gz target: the gzip compression level the encoder was
created with and the appended entries. -/
structure TarGzOut where
  gzLevel : Nat
  entries : List TarOut
deriving DecidableEq

/-- flate2 Compression::default() is gzip compression level 6; the encoders
at archive.rs 228 and 368 are created with it. -/
def gzDefaultLevel : Nat := 6

/-- Zip compression methods relevant to the embedding (zip crate
CompressionMethod). -/
inductive CompressionMethod
  | stored
  | deflated
  | deflate64
  | bzip2
  | zstd
deriving DecidableEq, BEq

/-- Modelled from the spec: a standard deflate-class method is one of the
DEFLATE family (Deflated or Deflate64). -/
def CompressionMethod.deflateFamily : CompressionMethod → Bool
  | .deflated => true
  | .deflate64 => true
  | _ => false

/-- A zip entry as written by ZipWriter: path, directory flag, the
compression method and unix permissions of its FileOptions. -/
structure ZipOut where
  path : String
  isDir : Bool
  method : CompressionMethod
  unixPermissions : Nat
deriving DecidableEq

/-- An entry as written to a 7z target. -/
structure SevenZOut where
  name : String
  isDir : Bool
deriving DecidableEq

/-- Fractions pushed by the accumulating progress closures (archive.rs
247-250, 383-386, 481-484, 189-192): each read of n bytes advances
read_size by n and emits read_size / total. Returns the final read_size and
the emitted fractions for this run of reads. -/
def emitReads (total : Nat) (readSize : Nat) : List Nat → Nat × List ℚ
  | [] => (readSize, [])
  | n :: rest =>
    let next := emitReads total (readSize + n) rest
    (next.1, fraction (readSize + n) total :: next.2)

/-- Fractions pushed by the closure of tar_gz_to_seven_z (archive.rs
331-334): read_size is still advanced by each read, but the emitted fraction
divides the size of the single read just performed, not the accumulated
read_size. -/
def emitReadsIncrement (total : Nat) (readSize : Nat) : List Nat → Nat × List ℚ
  | [] => (readSize, [])
  | n :: rest =>
    let next := emitReadsIncrement total (readSize + n) rest
    (next.1, fraction n total :: next.2)

/-- Loop body of zip_to_tar_gz (archive.rs 232-252): every entry (directory
or file) is appended with a GNU header carrying the entry size, its unix
mode defaulted to 0o644, and its kind; the body is streamed through
ProcessRead, emitting one fraction per read. -/
def zipToTarGzLoop (total : Nat) (readSize : Nat) :
    List ZipEntry → List TarOut × List ℚ
  | [] => ([], [])
  | e :: rest =>
    let hdr : TarOut :=
      { path := e.name
        size := e.size
        mode := e.unixMode.getD 0o644
        kind := if e.isDir then .directory else .regular }
    let r := emitReads total readSize e.reads
    let t := zipToTarGzLoop total r.1 rest
    (hdr :: t.1, r.2 ++ t.2)

/-- zip_to_tar_gz (archive.rs 221-255): open the Zip source (the argument
models the outcome of ZipArchive::new), compute the total size, then run the
entry loop; the gzip encoder is created with the default compression
level. -/
def zip_to_tar_gz (source : Except String ZipSource) :
    Except String (TarGzOut × List ℚ) :=
  match source with
  | .error e => .error e
  | .ok z =>
    let r := zipToTarGzLoop z.totalSize 0 z.entries
    .ok ({ gzLevel := gzDefaultLevel, entries := r.1 }, r.2)

/-- get_tar_gz_decompress_size (archive.rs 492-502): iterate the entries,
flatten drops Err results, keep file entries only, and sum their header
sizes. -/
def get_tar_gz_decompress_size (entries : TarSource) : Nat :=
  ((((entries.filterMap fun r =>
      match r with
      | .ok e => some e
      | .error _ => none).filter
        fun e => !e.isDir).map TarEntry.size)).sum

/-- Loop body of tar_gz_to_zip (archive.rs 279-294): an Err from the entries
iterator aborts the job; a directory entry is added as a directory marker; a
file entry is started, its body copied with io::copy, and one fraction
read_size / total is emitted per file entry after the copy. Every entry is
written with CompressionMethod::Bzip2 and the unix permissions of its
header. -/
def tarGzToZipLoop (total : Nat) (readSize : Nat) :
    TarSource → Except String (List ZipOut × List ℚ)
  | [] => .ok ([], [])
  | .error e :: _ => .error e
  | .ok entry :: rest =>
    if entry.isDir then
      match tarGzToZipLoop total readSize rest with
      | .error e => .error e
      | .ok t =>
        .ok ({ path := entry.path, isDir := true, method := .bzip2,
               unixPermissions := entry.mode } :: t.1, t.2)
    else
      let rs := readSize + entry.dataLen
      match tarGzToZipLoop total rs rest with
      | .error e => .error e
      | .ok t =>
        .ok ({ path := entry.path, isDir := false, method := .bzip2,
               unixPermissions := entry.mode } :: t.1,
             fraction rs total :: t.2)

/-- tar_gz_to_zip (archive.rs 268-297): precompute the decompressed size
over the entry listing, then run the entry loop from read_size 0. -/
def tar_gz_to_zip (entries : TarSource) : Except String (List ZipOut × List ℚ) :=
  tarGzToZipLoop (get_tar_gz_decompress_size entries) 0 entries

/-- Loop body of tar_gz_to_seven_z (archive.rs 321-337): an Err from the
entries iterator aborts the job; a directory becomes a directory entry with
no body; a file body is streamed through ProcessRead with the closure of
archive.rs 331-334, which emits the fraction of each single read size. -/
def tarGzToSevenZLoop (total : Nat) (readSize : Nat) :
    TarSource → Except String (List SevenZOut × List ℚ)
  | [] => .ok ([], [])
  | .error e :: _ => .error e
  | .ok entry :: rest =>
    if entry.isDir then
      match tarGzToSevenZLoop total readSize rest with
      | .error e => .error e
      | .ok t => .ok ({ name := entry.path, isDir := true } :: t.1, t.2)
    else
      let r := emitReadsIncrement total readSize entry.reads
      match tarGzToSevenZLoop total r.1 rest with
      | .error e => .error e
      | .ok t => .ok ({ name := entry.path, isDir := false } :: t.1, r.2 ++ t.2)

/-- tar_gz_to_seven_z (archive.rs 309-340). -/
def tar_gz_to_seven_z (entries : TarSource) :
    Except String (List SevenZOut × List ℚ) :=
  tarGzToSevenZLoop (get_tar_gz_decompress_size entries) 0 entries

/-- Loop body of seven_z_to_tar_gz (archive.rs 370-390): every entry
(directory or file) is appended with a GNU header carrying the entry size,
mode 0o644 and its kind; the body is streamed through ProcessRead with the
accumulating closure, one fraction per read. -/
def sevenZToTarGzLoop (total : Nat) (readSize : Nat) :
    List SevenZEntry → List TarOut × List ℚ
  | [] => ([], [])
  | e :: rest =>
    let hdr : TarOut :=
      { path := e.name
        size := e.size
        mode := 0o644
        kind := if e.isDir then .directory else .regular }
    let r := emitReads total readSize e.reads
    let t := sevenZToTarGzLoop total r.1 rest
    (hdr :: t.1, r.2 ++ t.2)

/-- seven_z_to_tar_gz (archive.rs 353-393): open the 7z source (the argument
models the outcome of ArchiveReader::new), then run the entry loop; the gzip
encoder is created with the default compression level. -/
def seven_z_to_tar_gz (source : Except String SevenZSource) :
    Except String (TarGzOut × List ℚ) :=
  match source with
  | .error e => .error e
  | .ok s =>
    let r := sevenZToTarGzLoop s.totalSize 0 s.entries
    .ok ({ gzLevel := gzDefaultLevel, entries := r.1 }, r.2)

/-- Loop body of seven_z_to_zip (archive.rs 422-444): a directory is added
as a directory marker; a file entry is started, its body copied with
io::copy, and one fraction read_size / total is emitted per file entry.
Every entry is written with CompressionMethod::Bzip2 and permissions
0o644. -/
def sevenZToZipLoop (total : Nat) (readSize : Nat) :
    List SevenZEntry → List ZipOut × List ℚ
  | [] => ([], [])
  | e :: rest =>
    if e.isDir then
      let t := sevenZToZipLoop total readSize rest
      ({ path := e.name, isDir := true, method := .bzip2,
         unixPermissions := 0o644 } :: t.1, t.2)
    else
      let rs := readSize + e.reads.sum
      let t := sevenZToZipLoop total rs rest
      ({ path := e.name, isDir := false, method := .bzip2,
         unixPermissions := 0o644 } :: t.1, fraction rs total :: t.2)

/-- seven_z_to_zip (archive.rs 406-448). -/
def seven_z_to_zip (source : Except String SevenZSource) :
    Except String (List ZipOut × List ℚ) :=
  match source with
  | .error e => .error e
  | .ok s => .ok (sevenZToZipLoop s.totalSize 0 s.entries)

/-- Loop body of zip_to_seven_z (archive.rs 472-487): a directory becomes a
directory entry with no body; a file body is streamed through ProcessRead
with the accumulating closure, one fraction per read. -/
def zipToSevenZLoop (total : Nat) (readSize : Nat) :
    List ZipEntry → List SevenZOut × List ℚ
  | [] => ([], [])
  | e :: rest =>
    if e.isDir then
      let t := zipToSevenZLoop total readSize rest
      ({ name := e.name, isDir := true } :: t.1, t.2)
    else
      let r := emitReads total readSize e.reads
      let t := zipToSevenZLoop total r.1 rest
      ({ name := e.name, isDir := false } :: t.1, r.2 ++ t.2)

/-- zip_to_seven_z (archive.rs 461-490). -/
def zip_to_seven_z (source : Except String ZipSource) :
    Except String (List SevenZOut × List ℚ) :=
  match source with
  | .error e => .error e
  | .ok z => .ok (zipToSevenZLoop z.totalSize 0 z.entries)

/-- Same-format branch of Archive::convert (archive.rs 182-195): a raw byte
copy of the whole file through ProcessRead, emitting read_size / file size
per read. -/
def copy_same_format (fileSize : Nat) (reads : List Nat) : List ℚ :=
  (emitReads fileSize 0 reads).2

/-- Events of a transcoder run: the emitted fractions on success, nothing on
failure. -/
def eventsOf {α : Type} : Except String (α × List ℚ) → List ℚ
  | .ok r => r.2
  | .error _ => []

/-- Compression methods of the zip entries written by a run: empty on
failure. -/
def zipOutMethods : Except String (List ZipOut × List ℚ) → List CompressionMethod
  | .ok r => r.1.map ZipOut.method
  | .error _ => []

/-- Gzip levels of a tar.gz producing run: empty on failure. -/
def gzLevelsOf : Except String (TarGzOut × List ℚ) → List Nat
  | .ok r => [r.1.gzLevel]
  | .error _ => []

/-! ## Archive descriptor (src/archive.rs lines 19-46 and 118-134)

The file system is abstracted at the points the code touches it: the
metadata call may fail or report a file/non-file with a length, and
path.file_name() with the UTF-8 conversion yields an optional string. The
descriptor keeps the file name it was classified with (in the source it is
recomputed from the unchanged path inside convert). -/

structure Metadata where
  isFile : Bool
  len : Nat
deriving DecidableEq

structure Archive where
  path : String
  fileName : String
  format : Format
  size : Nat
  status : Status
deriving DecidableEq

/-- Archive::parse (archive.rs 28-46): a metadata error propagates; a
non-file, a path without a UTF-8 file name, or an unmatched extension yield
no descriptor; otherwise a descriptor with Pending status is produced. -/
def Archive.parse (meta : Except String Metadata) (fileName : Option String)
    (path : String) : Except String (Option Archive) :=
  match meta with
  | .error e => .error e
  | .ok m =>
    if m.isFile then
      match fileName with
      | some name =>
        match Format.parse name with
        | some fmt =>
          .ok (some { path := path, fileName := name, format := fmt,
                      size := m.len, status := .pending })
        | none => .ok none
      | none => .ok none
    else .ok none

/-- File-base computation at the start of Archive::convert (archive.rs
124-134): strip the dot-extension of the descriptor's own format from its
file name. The source unwraps the strip result, so a none here models a
panic. -/
def Archive.fileBase (a : Archive) : Option String :=
  match a.format with
  | .zip => stripSuffix a.fileName ".zip"
  | .tarGz => stripSuffix a.fileName ".tar.gz"
  | .sevenZ => stripSuffix a.fileName ".7z"

/-! ## Batch coordinator (src/app.rs lines 124-190)

One conversion attempt per archive is modelled by its observable outcome:
the fractions handed to the progress callback in order, and the final
result. The unit of work for item i (app.rs 143-171) sends Processing(0.0)
on the shared channel before the task is spawned, then one Processing per
callback invocation, then exactly one terminal status (Success on Ok,
Failed with the error text on Err or on a join error). The channel is
multi-producer single-consumer and order-preserving per producer, so the
drained event list is an interleaving of the per-item traces; the sipper
forwards every event and signals completion exactly once when the channel
closes, which Task::sip turns into the final Completed message
(app.rs 175-183). -/

deriving instance DecidableEq for Except

structure ItemRun where
  progress : List ℚ
  result : Except String Unit
deriving DecidableEq

def defaultRun : ItemRun := { progress := [], result := .ok () }

def isOkResult : Except String Unit → Bool
  | .ok _ => true
  | .error _ => false

/-- Terminal status of a conversion result (app.rs 157-170). -/
def terminalOf : Except String Unit → Status
  | .ok _ => .success
  | .error e => .failed e

/-- Statuses item i sends on the channel, in emission order (app.rs
146-171). -/
def itemTrace (r : ItemRun) : List Status :=
  Status.processing 0 :: (r.progress.map Status.processing ++ [terminalOf r.result])

/-- The drained channel content of one batch: each event is tagged with its
item index; every tag is in range, and the subsequence of events of item i
is exactly item i's trace (per-producer order is preserved by the channel,
interleaving across producers is arbitrary). -/
def ValidBatchStream (runs : List ItemRun) (events : List (Nat × Status)) : Prop :=
  (∀ e ∈ events, e.1 < runs.length)
  ∧ ∀ i, i < runs.length →
      (events.filter (fun e => e.1 == i)).map Prod.snd
        = itemTrace (runs.getD i defaultRun)

/-- Messages the application receives from one batch (app.rs 179-183): one
UpdateArchiveStatus per channel event, then the single Completed. -/
inductive Message
  | updateArchiveStatus (index : Nat) (status : Status)
  | completed
deriving DecidableEq

def Message.isCompleted : Message → Bool
  | .completed => true
  | _ => false

def batchMessages (events : List (Nat × Status)) : List Message :=
  events.map (fun e => Message.updateArchiveStatus e.1 e.2) ++ [Message.completed]

instance (runs : List ItemRun) (events : List (Nat × Status)) :
    Decidable (ValidBatchStream runs events) := by
  unfold ValidBatchStream
  infer_instance

/-! ## Helper lemmas -/

theorem stripSuffix_isSome (s post : String) :
    (stripSuffix s post).isSome = strEndsWith s post := by
  unfold stripSuffix
  split <;> simp [*]

theorem format_parse_suffix (name : String) (fmt : Format)
    (h : Format.parse name = some fmt) :
    strEndsWith name ("." ++ fmt.extension) = true := by
  unfold Format.parse at h
  by_cases h1 : strEndsWith name ".zip"
  · simp only [h1, if_true] at h
    cases h
    simpa [Format.extension] using h1
  · by_cases h2 : strEndsWith name ".tar.gz"
    · simp only [h1, h2, if_true, if_false] at h
      cases h
      simpa [Format.extension] using h2
    · by_cases h3 : strEndsWith name ".7z"
      · simp only [h1, h2, h3, if_true, if_false] at h
        cases h
        simpa [Format.extension] using h3
      · simp [h1, h2, h3] at h

/-! ## Theorems for the claims -/

/-- C5: on every successful read of a chunk the wrapper invokes the callback
exactly once with the length of that chunk (the incremental count, not a
cumulative total) and returns the chunk unaltered; when the underlying read
errors, the error is propagated unchanged and the callback state is
untouched. -/
theorem processRead_read_spec {α β : Type} (p : ProcessRead α β) (st : α × β) :
    (∀ bs a, p.read st.1 = (Except.ok bs, a) →
      p.readStep st = (Except.ok bs, a, p.f st.2 bs.length))
    ∧ (∀ e a, p.read st.1 = (Except.error e, a) →
      p.readStep st = (Except.error e, a, st.2)) := by
  constructor
  · intro bs a h
    simp [ProcessRead.readStep, h]
  · intro e a h
    simp [ProcessRead.readStep, h]

/-- Concrete instantiation of processRead_read_spec: a source delivering the
three bytes 7, 7, 7 makes the wrapper log exactly one callback with 3. -/
theorem processRead_read_spec_witness :
    ProcessRead.readStep
        ⟨fun n => (Except.ok [7, 7, 7], n + 1), fun log n => log ++ [n]⟩
        ((0 : Nat), ([] : List Nat))
      = (Except.ok [7, 7, 7], 1, [3]) :=
  (processRead_read_spec
      ⟨fun n => (Except.ok [7, 7, 7], n + 1), fun log n => log ++ [n]⟩
      ((0 : Nat), ([] : List Nat))).1 [7, 7, 7] 1 rfl

/-- C7: "archive.tar.gz" classifies as TarGz (the whole .tar.gz suffix
matches; there is no bare .gz rule to misfire), "notes.gz" classifies as no
format, and in general parse scans the suffix table in its fixed order and
returns the first match or none. -/
theorem format_parse_order :
    Format.parse "archive.tar.gz" = some Format.tarGz
    ∧ Format.parse "notes.gz" = none
    ∧ ∀ name : String, Format.parse name = firstSuffixMatch name := by
  refine ⟨by decide, by decide, ?_⟩
  intro name
  unfold Format.parse firstSuffixMatch suffixTable
  cases h1 : strEndsWith name ".zip" <;>
    cases h2 : strEndsWith name ".tar.gz" <;>
      cases h3 : strEndsWith name ".7z" <;>
        simp [List.find?, h1, h2, h3]

/-- C8: classification yields a descriptor exactly for regular files whose
name matches a format; a metadata error is propagated as the error of the
classification step, while a directory or an unmatched name is silently
excluded as Ok(None). -/
theorem archive_parse_classification (meta : Except String Metadata)
    (fileName : Option String) (path : String) :
    (∀ e, meta = Except.error e →
      Archive.parse meta fileName path = Except.error e)
    ∧ (∀ m, meta = Except.ok m → m.isFile = false →
      Archive.parse meta fileName path = Except.ok none)
    ∧ (∀ m name, meta = Except.ok m → m.isFile = true → fileName = some name →
      Format.parse name = none → Archive.parse meta fileName path = Except.ok none)
    ∧ (∀ m name fmt, meta = Except.ok m → m.isFile = true → fileName = some name →
      Format.parse name = some fmt →
      Archive.parse meta fileName path = Except.ok (some
        { path := path, fileName := name, format := fmt, size := m.len,
          status := .pending })) := by
  refine ⟨?_, ?_, ?_, ?_⟩ <;> intros <;> subst_vars <;> simp [Archive.parse, *]

/-- Concrete instantiation of archive_parse_classification: a failing stat
propagates its error. -/
theorem archive_parse_classification_witness :
    Archive.parse (Except.error "permission denied") (some "a.zip") "/d/a.zip"
      = Except.error "permission denied" :=
  (archive_parse_classification (Except.error "permission denied")
      (some "a.zip") "/d/a.zip").1 "permission denied" rfl

/-- C10: every descriptor produced by Archive::parse has a file name ending
in "." followed by the canonical extension of its detected format, so the
strip_suffix at the start of Archive::convert succeeds (the unwrap cannot
panic). -/
theorem archive_parse_strip_safe (meta : Except String Metadata)
    (fileName : Option String) (path : String) (a : Archive)
    (h : Archive.parse meta fileName path = Except.ok (some a)) :
    strEndsWith a.fileName ("." ++ a.format.extension) = true
    ∧ (Archive.fileBase a).isSome = true := by
  rcases meta with e | m
  · simp [Archive.parse] at h
  · by_cases hm : m.isFile
    · rcases fileName with _ | name
      · simp [Archive.parse, hm] at h
      · cases hf : Format.parse name with
        | none => simp [Archive.parse, hm, hf] at h
        | some fmt =>
          simp only [Archive.parse, hm, if_true, hf] at h
          cases h
          have hs := format_parse_suffix name fmt hf
          refine ⟨hs, ?_⟩
          cases fmt <;>
            simpa [Archive.fileBase, stripSuffix_isSome, Format.extension] using hs
    · simp [Archive.parse, hm] at h

/-- Concrete instantiation of archive_parse_strip_safe on x.tar.gz. -/
theorem archive_parse_strip_safe_witness :
    strEndsWith "x.tar.gz" ("." ++ Format.extension Format.tarGz) = true
    ∧ (Archive.fileBase
        { path := "/d/x.tar.gz", fileName := "x.tar.gz", format := .tarGz,
          size := 9, status := .pending }).isSome = true :=
  archive_parse_strip_safe (Except.ok { isFile := true, len := 9 })
    (some "x.tar.gz") "/d/x.tar.gz"
    { path := "/d/x.tar.gz", fileName := "x.tar.gz", format := .tarGz,
      size := 9, status := .pending } (by decide)

/-- C3 (evidence of the code bug): converting a tar.gz holding a single
10-byte file entry (body delivered as one 10-byte read, then the 0-byte read
at end of file) to 7z emits the fractions [1, 0]: the sequence decreases and
the last fraction before success is 0, not 1.0, because the closure at
archive.rs 333 divides the single read size instead of the accumulated
read_size it just updated. -/
theorem tar_gz_to_seven_z_progress_values :
    tar_gz_to_seven_z
        [Except.ok { path := "a.txt", mode := 0o644, isDir := false,
                     size := 10, reads := [10, 0] }]
      = Except.ok ([{ name := "a.txt", isDir := false }], [1, 0])
    ∧ ¬ ((1 : ℚ) ≤ (0 : ℚ)) := by
  exact ⟨by decide, by decide⟩

/-- C6 (counterexample): tar_gz_to_zip does not surface progress through the
ProcessRead wrapper; it copies a whole entry with io::copy and emits a
single fraction per file entry. A file entry whose body arrives in two
4096-byte reads produces one emitted fraction, not two. -/
theorem tar_gz_to_zip_one_event_per_entry :
    tar_gz_to_zip
        [Except.ok { path := "big.bin", mode := 0o600, isDir := false,
                     size := 8192, reads := [4096, 4096] }]
      = Except.ok ([{ path := "big.bin", isDir := false,
                      method := .bzip2, unixPermissions := 0o600 }], [1]) := by
  decide

/-- C4 (counterexample): the Zip-producing transcoders write their entries
with CompressionMethod::Bzip2 (archive.rs 285 and 432), which is not a
deflate-class method. -/
theorem zip_target_method_not_deflate :
    zipOutMethods (tar_gz_to_zip
        [Except.ok { path := "doc.txt", mode := 0o644, isDir := false,
                     size := 4, reads := [4] }])
      = [CompressionMethod.bzip2]
    ∧ CompressionMethod.deflateFamily CompressionMethod.bzip2 = false := by
  exact ⟨by decide, by decide⟩

/-- C9 (counterexample): a 0-byte source file is not a structurally valid
container of any supported format, so converting it fails instead of
producing an empty target. For Zip, ZipArchive::new at archive.rs 227 fails
on a 0-byte input because no end-of-central-directory record exists (a
valid Zip file is at least 22 bytes); for tar.gz, the gzip header cannot be
read from an empty stream, so the first result of the entries iterator is an
I/O error, which aborts the loop at archive.rs 280. -/
theorem zero_byte_source_conversion_fails :
    zip_to_tar_gz (Except.error "invalid Zip archive: could not find central directory end")
      = Except.error "invalid Zip archive: could not find central directory end"
    ∧ tar_gz_to_zip [Except.error "failed to fill whole buffer"]
      = Except.error "failed to fill whole buffer" :=
  ⟨rfl, rfl⟩

/-- C9 (amended): converting a structurally valid source container with zero
entries succeeds on every format pair and produces a target with zero
entries and no progress events. -/
theorem empty_container_conversion (known : Bool) :
    zip_to_tar_gz (Except.ok { entries := [], sizeKnown := known })
      = Except.ok ({ gzLevel := gzDefaultLevel, entries := [] }, [])
    ∧ tar_gz_to_zip [] = Except.ok ([], [])
    ∧ tar_gz_to_seven_z [] = Except.ok ([], [])
    ∧ seven_z_to_tar_gz (Except.ok { entries := [] })
      = Except.ok ({ gzLevel := gzDefaultLevel, entries := [] }, [])
    ∧ seven_z_to_zip (Except.ok { entries := [] }) = Except.ok ([], [])
    ∧ zip_to_seven_z (Except.ok { entries := [], sizeKnown := known })
      = Except.ok ([], []) := by
  refine ⟨?_, rfl, rfl, rfl, rfl, ?_⟩ <;> cases known <;> rfl

/-! ## Emission-count lemmas for the transcoder loops -/

theorem emitReads_length (total : Nat) (reads : List Nat) :
    ∀ rs, (emitReads total rs reads).2.length = reads.length := by
  induction reads with
  | nil => intro rs; rfl
  | cons n rest ih => intro rs; simp [emitReads, ih]

theorem emitReadsIncrement_length (total : Nat) (reads : List Nat) :
    ∀ rs, (emitReadsIncrement total rs reads).2.length = reads.length := by
  induction reads with
  | nil => intro rs; rfl
  | cons n rest ih => intro rs; simp [emitReadsIncrement, ih]

theorem zipToTarGzLoop_events_length (total : Nat) (entries : List ZipEntry) :
    ∀ rs, (zipToTarGzLoop total rs entries).2.length
      = (entries.map (fun e => e.reads.length)).sum := by
  induction entries with
  | nil => intro rs; rfl
  | cons e rest ih => intro rs; simp [zipToTarGzLoop, ih, emitReads_length]

theorem sevenZToTarGzLoop_events_length (total : Nat) (entries : List SevenZEntry) :
    ∀ rs, (sevenZToTarGzLoop total rs entries).2.length
      = (entries.map (fun e => e.reads.length)).sum := by
  induction entries with
  | nil => intro rs; rfl
  | cons e rest ih => intro rs; simp [sevenZToTarGzLoop, ih, emitReads_length]

theorem zipToSevenZLoop_events_length (total : Nat) (entries : List ZipEntry) :
    ∀ rs, (zipToSevenZLoop total rs entries).2.length
      = ((entries.filter (fun e => !e.isDir)).map (fun e => e.reads.length)).sum := by
  induction entries with
  | nil => intro rs; rfl
  | cons e rest ih =>
    intro rs
    by_cases hd : e.isDir <;>
      simp [zipToSevenZLoop, hd, ih, emitReads_length, List.filter_cons]

theorem sevenZToZipLoop_events_length (total : Nat) (entries : List SevenZEntry) :
    ∀ rs, (sevenZToZipLoop total rs entries).2.length
      = (entries.filter (fun e => !e.isDir)).length := by
  induction entries with
  | nil => intro rs; rfl
  | cons e rest ih =>
    intro rs
    by_cases hd : e.isDir <;>
      simp [sevenZToZipLoop, hd, ih, List.filter_cons]

theorem tarGzToZipLoop_ok_events_length (total : Nat) (entries : List TarEntry) :
    ∀ rs, ∃ r, tarGzToZipLoop total rs (entries.map Except.ok) = Except.ok r
      ∧ r.2.length = (entries.filter (fun e => !e.isDir)).length := by
  induction entries with
  | nil => intro rs; exact ⟨([], []), rfl, rfl⟩
  | cons e rest ih =>
    intro rs
    by_cases hd : e.isDir
    · obtain ⟨r, hr, hlen⟩ := ih rs
      refine ⟨({ path := e.path, isDir := true, method := .bzip2,
                 unixPermissions := e.mode } :: r.1, r.2), ?_, ?_⟩
      · simp only [List.map_cons, tarGzToZipLoop, hd, if_true, hr]
      · simpa [List.filter_cons, hd] using hlen
    · obtain ⟨r, hr, hlen⟩ := ih (rs + e.dataLen)
      refine ⟨({ path := e.path, isDir := false, method := .bzip2,
                 unixPermissions := e.mode } :: r.1,
               fraction (rs + e.dataLen) total :: r.2), ?_, ?_⟩
      · simp [List.map_cons, tarGzToZipLoop, hd, hr]
      · simpa [List.filter_cons, hd] using hlen

theorem tarGzToSevenZLoop_ok_events_length (total : Nat) (entries : List TarEntry) :
    ∀ rs, ∃ r, tarGzToSevenZLoop total rs (entries.map Except.ok) = Except.ok r
      ∧ r.2.length
        = ((entries.filter (fun e => !e.isDir)).map (fun e => e.reads.length)).sum := by
  induction entries with
  | nil => intro rs; exact ⟨([], []), rfl, rfl⟩
  | cons e rest ih =>
    intro rs
    by_cases hd : e.isDir
    · obtain ⟨r, hr, hlen⟩ := ih rs
      refine ⟨({ name := e.path, isDir := true } :: r.1, r.2), ?_, ?_⟩
      · simp only [List.map_cons, tarGzToSevenZLoop, hd, if_true, hr]
      · simpa [List.filter_cons, hd] using hlen
    · obtain ⟨r, hr, hlen⟩ := ih (emitReadsIncrement total rs e.reads).1
      refine ⟨({ name := e.path, isDir := false } :: r.1,
               (emitReadsIncrement total rs e.reads).2 ++ r.2), ?_, ?_⟩
      · simp [List.map_cons, tarGzToSevenZLoop, hd, hr]
      · simp [List.filter_cons, hd, hlen, emitReadsIncrement_length]

/-- C6 (amended): the wrapper-per-read mechanism is used by four of the six
transcoders (one fraction per read of an entry body), while tar_gz_to_zip
and seven_z_to_zip copy each entry wholesale with io::copy and emit a single
accumulated fraction per file entry. -/
theorem progress_emission_mechanism (z : ZipSource) (l : List TarEntry)
    (s : SevenZSource) :
    (eventsOf (zip_to_tar_gz (Except.ok z))).length
      = (z.entries.map (fun e => e.reads.length)).sum
    ∧ (eventsOf (zip_to_seven_z (Except.ok z))).length
      = ((z.entries.filter (fun e => !e.isDir)).map (fun e => e.reads.length)).sum
    ∧ (eventsOf (seven_z_to_tar_gz (Except.ok s))).length
      = (s.entries.map (fun e => e.reads.length)).sum
    ∧ (eventsOf (tar_gz_to_seven_z (l.map Except.ok))).length
      = ((l.filter (fun e => !e.isDir)).map (fun e => e.reads.length)).sum
    ∧ (eventsOf (tar_gz_to_zip (l.map Except.ok))).length
      = (l.filter (fun e => !e.isDir)).length
    ∧ (eventsOf (seven_z_to_zip (Except.ok s))).length
      = (s.entries.filter (fun e => !e.isDir)).length := by
  refine ⟨?_, ?_, ?_, ?_, ?_, ?_⟩
  · simpa [zip_to_tar_gz, eventsOf] using
      zipToTarGzLoop_events_length z.totalSize z.entries 0
  · simpa [zip_to_seven_z, eventsOf] using
      zipToSevenZLoop_events_length z.totalSize z.entries 0
  · simpa [seven_z_to_tar_gz, eventsOf] using
      sevenZToTarGzLoop_events_length s.totalSize s.entries 0
  · obtain ⟨r, hr, hlen⟩ :=
      tarGzToSevenZLoop_ok_events_length
        (get_tar_gz_decompress_size (l.map Except.ok)) l 0
    simpa [tar_gz_to_seven_z, eventsOf, hr] using hlen
  · obtain ⟨r, hr, hlen⟩ :=
      tarGzToZipLoop_ok_events_length
        (get_tar_gz_decompress_size (l.map Except.ok)) l 0
    simpa [tar_gz_to_zip, eventsOf, hr] using hlen
  · simpa [seven_z_to_zip, eventsOf] using
      sevenZToZipLoop_events_length s.totalSize s.entries 0

/-! ## Compression-policy lemmas -/

theorem tarGzToZipLoop_methods (total : Nat) (entries : TarSource) :
    ∀ rs r, tarGzToZipLoop total rs entries = Except.ok r →
      ∀ o ∈ r.1, o.method = CompressionMethod.bzip2 := by
  induction entries with
  | nil =>
    intro rs r hr o ho
    cases hr
    simp at ho
  | cons x rest ih =>
    intro rs r hr o ho
    cases x with
    | error e => simp [tarGzToZipLoop] at hr
    | ok entry =>
      by_cases hd : entry.isDir
      · simp only [tarGzToZipLoop, hd, if_true] at hr
        cases hx : tarGzToZipLoop total rs rest with
        | error e => rw [hx] at hr; cases hr
        | ok t =>
          rw [hx] at hr
          cases hr
          rcases List.mem_cons.mp ho with h | h
          · subst h; rfl
          · exact ih rs t hx o h
      · simp only [tarGzToZipLoop, hd, if_false] at hr
        cases hx : tarGzToZipLoop total (rs + entry.dataLen) rest with
        | error e => rw [hx] at hr; cases hr
        | ok t =>
          rw [hx] at hr
          cases hr
          rcases List.mem_cons.mp ho with h | h
          · subst h; rfl
          · exact ih (rs + entry.dataLen) t hx o h

theorem sevenZToZipLoop_methods (total : Nat) (entries : List SevenZEntry) :
    ∀ rs, ∀ o ∈ (sevenZToZipLoop total rs entries).1,
      o.method = CompressionMethod.bzip2 := by
  induction entries with
  | nil => intro rs o ho; simp [sevenZToZipLoop] at ho
  | cons e rest ih =>
    intro rs o ho
    by_cases hd : e.isDir <;>
      · simp only [sevenZToZipLoop, hd, if_true, if_false] at ho
        rcases List.mem_cons.mp ho with h | h
        · subst h; rfl
        · first
          | exact ih rs o h
          | exact ih (rs + e.reads.sum) o h

/-- C4 (amended): every Zip target entry, whatever the source, is written
with the fixed method Bzip2, and every tar.gz target is produced by a gzip
encoder at the default compression level; neither is configurable by the
caller, so the policy is identical across runs. -/
theorem compression_policy_fixed (src : TarSource)
    (s7 : Except String SevenZSource) (z : Except String ZipSource)
    (s7b : Except String SevenZSource) :
    ((zipOutMethods (tar_gz_to_zip src)).all
      (fun m => m == CompressionMethod.bzip2) = true)
    ∧ ((zipOutMethods (seven_z_to_zip s7)).all
      (fun m => m == CompressionMethod.bzip2) = true)
    ∧ ((gzLevelsOf (zip_to_tar_gz z)).all (fun n => n == gzDefaultLevel) = true)
    ∧ ((gzLevelsOf (seven_z_to_tar_gz s7b)).all (fun n => n == gzDefaultLevel) = true) := by
  refine ⟨?_, ?_, ?_, ?_⟩
  · cases hr : tar_gz_to_zip src with
    | error e => simp [zipOutMethods]
    | ok r =>
      simp only [zipOutMethods, List.all_eq_true]
      intro m hm
      obtain ⟨o, ho, rfl⟩ := List.mem_map.mp hm
      have := tarGzToZipLoop_methods (get_tar_gz_decompress_size src) src 0 r hr o ho
      rw [this]
      rfl
  · cases s7 with
    | error e => simp [seven_z_to_zip, zipOutMethods]
    | ok s =>
      simp only [seven_z_to_zip, zipOutMethods, List.all_eq_true]
      intro m hm
      obtain ⟨o, ho, rfl⟩ := List.mem_map.mp hm
      have := sevenZToZipLoop_methods s.totalSize s.entries 0 o ho
      rw [this]
      rfl
  · cases z with
    | error e => simp [zip_to_tar_gz, gzLevelsOf]
    | ok zz => simp [zip_to_tar_gz, gzLevelsOf]
  · cases s7b with
    | error e => simp [seven_z_to_tar_gz, gzLevelsOf]
    | ok s => simp [seven_z_to_tar_gz, gzLevelsOf]

/-! ## Counting lemmas for the batch event stream -/

/-- Counting over a tagged event list partitions into the per-tag buckets
when every tag is below N. -/
theorem countP_tag_partition (events : List (Nat × Status)) (N : Nat)
    (h : ∀ e ∈ events, e.1 < N) (p : Nat × Status → Bool) :
    events.countP p
      = ∑ i ∈ Finset.range N, (events.filter (fun e => e.1 == i)).countP p := by
  induction events with
  | nil => simp
  | cons e l ih =>
    have he : e.1 < N := h e (List.mem_cons_self e l)
    have hl : ∀ x ∈ l, x.1 < N := fun x hx => h x (List.mem_cons_of_mem e hx)
    rw [List.countP_cons, ih hl]
    have hsum : ∀ i ∈ Finset.range N,
        ((e :: l).filter (fun x => x.1 == i)).countP p
          = (l.filter (fun x => x.1 == i)).countP p
            + (if e.1 = i then (if p e then 1 else 0) else 0) := by
      intro i _
      by_cases hei : e.1 = i
      · simp [List.filter_cons, hei, List.countP_cons]
      · simp [List.filter_cons, hei]
    rw [Finset.sum_congr rfl hsum, Finset.sum_add_distrib,
      Finset.sum_ite_eq (Finset.range N) e.1 (fun _ => if p e then 1 else 0)]
    simp [Finset.mem_range.mpr he, Nat.add_comm]

theorem itemTrace_countP_isSuccess (r : ItemRun) :
    (itemTrace r).countP Status.isSuccess
      = if isOkResult r.result then 1 else 0 := by
  cases hr : r.result <;>
    simp [itemTrace, terminalOf, hr, isOkResult, List.countP_cons,
      List.countP_append, List.countP_map, Function.comp, Status.isSuccess]

theorem itemTrace_countP_isFailed (r : ItemRun) :
    (itemTrace r).countP Status.isFailed
      = if isOkResult r.result then 0 else 1 := by
  cases hr : r.result <;>
    simp [itemTrace, terminalOf, hr, isOkResult, List.countP_cons,
      List.countP_append, List.countP_map, Function.comp, Status.isFailed]

theorem itemTrace_countP_isTerminal (r : ItemRun) :
    (itemTrace r).countP Status.isTerminal = 1 := by
  cases hr : r.result <;>
    simp [itemTrace, terminalOf, hr, List.countP_cons, List.countP_append,
      List.countP_map, Function.comp, Status.isTerminal, Status.isSuccess,
      Status.isFailed]

/-- A per-status count over item i's bucket equals the count over item i's
trace. -/
theorem bucket_countP (runs : List ItemRun) (events : List (Nat × Status))
    (hv : ValidBatchStream runs events) (i : Nat) (hi : i < runs.length)
    (q : Status → Bool) :
    (events.filter (fun e => e.1 == i)).countP (fun e => q e.2)
      = (itemTrace (runs.getD i defaultRun)).countP q := by
  have h2 := hv.2 i hi
  have hmap : ((events.filter (fun e => e.1 == i)).map Prod.snd).countP q
      = (events.filter (fun e => e.1 == i)).countP (fun e => q e.2) := by
    rw [List.countP_map]
    rfl
  rw [← hmap, h2]

theorem sum_indicator_eq_one (N j : Nat) (hj : j < N) :
    (∑ i ∈ Finset.range N, if i = j then (1 : Nat) else 0) = 1 := by
  rw [Finset.sum_ite_eq' (Finset.range N) j (fun _ => (1 : Nat))]
  simp [Finset.mem_range.mpr hj]

theorem sum_indicator_compl (N j : Nat) (hj : j < N) :
    (∑ i ∈ Finset.range N, if i = j then (0 : Nat) else 1) = N - 1 := by
  have hmem : j ∈ Finset.range N := Finset.mem_range.mpr hj
  rw [Finset.sum_eq_sum_diff_singleton_add hmem]
  have hrest : ∀ i ∈ Finset.range N \ {j}, (if i = j then (0 : Nat) else 1) = 1 := by
    intro i hi
    rcases Finset.mem_sdiff.mp hi with ⟨_, hij⟩
    simp [Finset.mem_singleton] at hij
    simp [hij]
  rw [Finset.sum_congr rfl hrest]
  simp [Finset.card_sdiff (Finset.singleton_subset_iff.mpr hmem)]

/-- C1: in a batch whose dispatched items all succeed except the single item
j, any drained event stream carries exactly runs.length - 1 Success events
and exactly 1 Failed event; every item, the failed one included, reaches
exactly one terminal event; and the application receives exactly one
Completed message, as the last message after every status update. -/
theorem batch_one_failure (runs : List ItemRun) (events : List (Nat × Status))
    (hv : ValidBatchStream runs events) (j : Nat) (hj : j < runs.length)
    (hfail : isOkResult (runs.getD j defaultRun).result = false)
    (hok : ∀ i, i < runs.length → i ≠ j →
      isOkResult (runs.getD i defaultRun).result = true) :
    events.countP (fun e => Status.isSuccess e.2) = runs.length - 1
    ∧ events.countP (fun e => Status.isFailed e.2) = 1
    ∧ (∀ i, i < runs.length →
        (events.filter (fun e => e.1 == i)).countP (fun e => Status.isTerminal e.2) = 1)
    ∧ (batchMessages events).countP Message.isCompleted = 1
    ∧ (batchMessages events).getLast? = some Message.completed := by
  refine ⟨?_, ?_, ?_, ?_, ?_⟩
  · rw [countP_tag_partition events runs.length hv.1]
    have hterm : ∀ i ∈ Finset.range runs.length,
        (events.filter (fun e => e.1 == i)).countP (fun e => Status.isSuccess e.2)
          = if i = j then (0 : Nat) else 1 := by
      intro i hi
      have hi2 := Finset.mem_range.mp hi
      rw [bucket_countP runs events hv i hi2, itemTrace_countP_isSuccess]
      by_cases hij : i = j
      · subst hij
        rw [hfail]
        simp
      · rw [hok i hi2 hij]
        simp [hij]
    rw [Finset.sum_congr rfl hterm, sum_indicator_compl runs.length j hj]
  · rw [countP_tag_partition events runs.length hv.1]
    have hterm : ∀ i ∈ Finset.range runs.length,
        (events.filter (fun e => e.1 == i)).countP (fun e => Status.isFailed e.2)
          = if i = j then (1 : Nat) else 0 := by
      intro i hi
      have hi2 := Finset.mem_range.mp hi
      rw [bucket_countP runs events hv i hi2, itemTrace_countP_isFailed]
      by_cases hij : i = j
      · subst hij
        rw [hfail]
        simp
      · rw [hok i hi2 hij]
        simp [hij]
    rw [Finset.sum_congr rfl hterm, sum_indicator_eq_one runs.length j hj]
  · intro i hi
    rw [bucket_countP runs events hv i hi, itemTrace_countP_isTerminal]
  · simp [batchMessages, List.countP_append, List.countP_map, Function.comp,
      Message.isCompleted, List.countP_cons]
  · simp [batchMessages]

/-- Concrete instantiation of batch_one_failure: three items, item 1 fails,
the interleaved stream carries 2 Success events. -/
theorem batch_one_failure_witness :
    ([((0 : Nat), Status.processing 0), (1, Status.processing 0),
      (2, Status.processing 0), (1, Status.failed "bad archive"),
      (0, Status.processing 1), (2, Status.processing (mkRat 1 2)),
      (0, Status.success), (2, Status.processing 1),
      (2, Status.success)].countP (fun e => Status.isSuccess e.2)) = 2 :=
  (batch_one_failure
    [{ progress := [1], result := .ok () },
     { progress := [], result := .error "bad archive" },
     { progress := [mkRat 1 2, 1], result := .ok () }]
    [((0 : Nat), Status.processing 0), (1, Status.processing 0),
     (2, Status.processing 0), (1, Status.failed "bad archive"),
     (0, Status.processing 1), (2, Status.processing (mkRat 1 2)),
     (0, Status.success), (2, Status.processing 1), (2, Status.success)]
    (by decide) 1 (by decide) (by decide) (by decide)).1

/-- C2: for every item i of a batch, the subsequence of events tagged i
starts with Processing(0.0), continues with zero or more Processing events
(none of them terminal), and ends with the single terminal event of that
item (Success or Failed); no event tagged i follows it. -/
theorem item_event_shape (runs : List ItemRun) (events : List (Nat × Status))
    (hv : ValidBatchStream runs events) (i : Nat) (hi : i < runs.length) :
    (events.filter (fun e => e.1 == i)).map Prod.snd
      = Status.processing 0
          :: ((runs.getD i defaultRun).progress.map Status.processing
            ++ [terminalOf (runs.getD i defaultRun).result])
    ∧ (∀ s ∈ (runs.getD i defaultRun).progress.map Status.processing,
        Status.isTerminal s = false)
    ∧ Status.isTerminal (terminalOf (runs.getD i defaultRun).result) = true
    ∧ ((events.filter (fun e => e.1 == i)).map Prod.snd).countP Status.isTerminal = 1 := by
  refine ⟨hv.2 i hi, ?_, ?_, ?_⟩
  · intro s hs
    obtain ⟨q, _, rfl⟩ := List.mem_map.mp hs
    rfl
  · cases (runs.getD i defaultRun).result <;> rfl
  · rw [hv.2 i hi]
    exact itemTrace_countP_isTerminal (runs.getD i defaultRun)

/-- Concrete instantiation of item_event_shape: item 0 of a two-item batch
with an interleaved stream. -/
theorem item_event_shape_witness :
    (([((0 : Nat), Status.processing 0), (1, Status.processing 0),
       (0, Status.processing (mkRat 1 4)), (1, Status.failed "oops"),
       (0, Status.success)].filter (fun e => e.1 == 0)).map Prod.snd)
      = Status.processing 0
          :: ([Status.processing (mkRat 1 4)] ++ [Status.success]) :=
  (item_event_shape
    [{ progress := [mkRat 1 4], result := .ok () },
     { progress := [], result := .error "oops" }]
    [((0 : Nat), Status.processing 0), (1, Status.processing 0),
     (0, Status.processing (mkRat 1 4)), (1, Status.failed "oops"),
     (0, Status.success)]
    (by decide) 0 (by decide)).1

end Abz
